import Mathlib

/-! Verification of the file-integrity checker (`src/integrity_checker.py`).

The Python program is embedded shallowly:

* A filesystem is a finite association list from full path strings to file
  data; a file is either readable with some byte content (modelled as a
  `String`) or unreadable (any read raises, which `calculate_hash` catches).
* `os.path.isfile p` is "p is a key of the filesystem"; `os.path.isdir p`
  is "some file key lives strictly below p", i.e. has `p ++ "/"` as a
  prefix; `os.walk` over a directory enumerates exactly those file keys,
  already joined with their root (mirroring `os.path.join(root, file)`).
* `hashlib.sha256(...).hexdigest()` is modelled as a deterministic 256-bit
  digest of the content rendered as 64 lowercase hex characters.  The
  SHA-256 compression function itself is abstracted by a deterministic
  function `hashNat : String → Nat` with values below `2 ^ 256`: the claims
  under verification concern determinism, the digest's hex format and the
  `None` error sentinel, never a specific SHA-256 value.  The 4096-byte
  chunked read folds the whole content into the accumulator, so hashing
  whole contents is faithful.
* Python dicts are association lists with insert-overwrite semantics
  (`dictInsert`); `json` round-trips `None` as `null`, so baseline values
  are `Option String` with `none` as the error sentinel.
* `check_integrity` is modelled as the trace of externally visible events
  it performs, in order: writing the report, invoking the alert sink,
  the SMTP send, and the log lines the claims mention.  SMTP transport
  success is an explicit boolean parameter; `datetime.now()` is an explicit
  timestamp parameter.
-/

namespace FIC

/-- Data stored at a file path: readable content, or a file whose reads
raise an exception (permission error, I/O error). -/
inductive FileData where
  | ok (content : String)
  | unreadable
deriving DecidableEq

/-- A filesystem snapshot: association list from full path to file data. -/
abbrev FS := List (String × FileData)

/-- Look up a file entry by path (first match wins, as in a real directory
tree where paths are unique). -/
def lookupFD : FS → String → Option FileData
  | [], _ => none
  | e :: rest, p => if e.1 = p then some e.2 else lookupFD rest p

/-- Model of `os.path.isfile`. -/
def isFile (fs : FS) (p : String) : Bool :=
  (lookupFD fs p).isSome

/-- Predicate `dirPrefixOf d q`: path `q` lies strictly below directory
path `d`, i.e. `d ++ "/"` is a prefix of `q`. -/
def dirPrefixOf (d q : String) : Bool :=
  (d.data ++ ['/']).isPrefixOf q.data

/-- Model of `os.path.isdir`: some file lives strictly below `p`. -/
def isDir (fs : FS) (p : String) : Bool :=
  fs.any fun e => dirPrefixOf p e.1

/-- Model of `os.path.exists`: the path is a file or a directory. -/
def pathExists (fs : FS) (p : String) : Bool :=
  isFile fs p || isDir fs p

/-- Model of `os.walk` from a directory root: every file key strictly below
`root`, already joined to a full path (as `os.path.join(root, file)` does). -/
def walk (fs : FS) (root : String) : List String :=
  (fs.filter fun e => dirPrefixOf root e.1).map (·.1)

/-- Deterministic 256-bit content digest standing in for the SHA-256
compression function (an FNV-style fold; only determinism and the
256-bit range matter for the claims). -/
def hashNat (content : String) : Nat :=
  content.data.foldl (fun a c => (a * 1099511628211 + c.toNat + 1) % 2 ^ 256)
    14695981039346656037

/-- Lowercase hex character for a digit below 16. -/
def hexChar (m : Nat) : Char :=
  if m < 10 then Char.ofNat (48 + m) else Char.ofNat (87 + m)

/-- Big-endian 64-character lowercase hex rendering of a 256-bit number,
as `hashlib`'s `hexdigest` renders a 32-byte digest. -/
def hexdigest (n : Nat) : String :=
  ⟨(List.range 64).map fun i => hexChar (n / 16 ^ (63 - i) % 16)⟩

/-- Model of `hashlib.sha256(content).hexdigest()` for a fully read content. -/
def sha256hex (content : String) : String :=
  hexdigest (hashNat content)

/-- Model of `FileIntegrityChecker.calculate_hash`: stream the file into a
SHA-256 accumulator and return the hex digest; any exception (missing file,
unreadable file) is caught and `None` is returned. -/
def calculate_hash (fs : FS) (p : String) : Option String :=
  match lookupFD fs p with
  | some (.ok c) => some (sha256hex c)
  | some .unreadable => none
  | none => none

/-- A baseline as persisted in `baseline_hashes.json`: a path-keyed dict
whose values are hex digests or the `null` sentinel from a failed hash. -/
abbrev Baseline := List (String × Option String)

/-- Python dict key membership (`path in baseline`). -/
def hasKey (b : Baseline) (k : String) : Bool :=
  b.any fun e => e.1 = k

/-- Python dict lookup (`baseline[path]`), partial in Python, optional here. -/
def lookupB : Baseline → String → Option (Option String)
  | [], _ => none
  | e :: rest, k => if e.1 = k then some e.2 else lookupB rest k

/-- Python dict assignment `d[k] = v`: overwrite in place when the key is
present, otherwise append, preserving insertion order. -/
def dictInsert (b : Baseline) (k : String) (v : Option String) : Baseline :=
  if hasKey b k then b.map fun e => if e.1 = k then (k, v) else e
  else b ++ [(k, v)]

/-- The configuration fields of `integrity_config.json` that the core
consumes.  `alert_email` is `None`-able; Python treats both `None` and the
empty string as falsy in `send_alert`. -/
structure Config where
  monitor_paths : List String
  check_interval : Nat
  alert_email : Option String
  report_dir : String
deriving DecidableEq

/-- Python truthiness of the `alert_email` configuration value. -/
def emailTruthy : Option String → Bool
  | none => false
  | some s => !(s = "")

/-- Inner loop of `create_baseline`'s directory branch: hash every file
found by `os.walk` and insert it into the dict. -/
def walkInsert (fs : FS) : List String → Baseline → Baseline
  | [], b => b
  | fp :: rest, b => walkInsert fs rest (dictInsert b fp (calculate_hash fs fp))

/-- The loop of `create_baseline` over the configured monitor paths. -/
def create_baselineAux (fs : FS) : List String → Baseline → Baseline
  | [], b => b
  | path :: rest, b =>
    create_baselineAux fs rest
      (if isFile fs path then dictInsert b path (calculate_hash fs path)
       else if isDir fs path then walkInsert fs (walk fs path) b
       else b)

/-- Model of `FileIntegrityChecker.create_baseline`: the baseline dict
built over the configured monitor paths (files hashed directly,
directories expanded by `os.walk`), which the method then persists whole. -/
def create_baseline (cfg : Config) (fs : FS) : Baseline :=
  create_baselineAux fs cfg.monitor_paths []

/-- One entry of the report's `changes` list. -/
structure Change where
  file : String
  expected_hash : Option String
  current_hash : Option String
deriving DecidableEq

/-- The report structure built by `check_integrity`. -/
structure Report where
  timestamp : String
  changes : List Change
  missing_files : List String
  new_files : List String
deriving DecidableEq

/-- The first loop of `check_integrity` over the baseline entries, in
order: a vanished path goes to `missing_files` (and the loop continues),
otherwise the freshly computed hash is compared and a differing hash
appends a `changes` entry. -/
def checkExisting (fs : FS) : Baseline → List Change × List String
  | [] => ([], [])
  | (p, expected) :: rest =>
    if pathExists fs p = false then
      ((checkExisting fs rest).1, p :: (checkExisting fs rest).2)
    else if calculate_hash fs p = expected then checkExisting fs rest
    else (⟨p, expected, calculate_hash fs p⟩ :: (checkExisting fs rest).1,
      (checkExisting fs rest).2)

/-- The second loop of `check_integrity` over the monitor paths: a
monitored file not keyed in the baseline is new; a monitored directory
contributes every walked file not keyed in the baseline. -/
def scanNewFiles (fs : FS) (b : Baseline) : List String → List String
  | [] => []
  | path :: rest =>
    (if isFile fs path && !hasKey b path then [path]
     else if isDir fs path then (walk fs path).filter fun fp => !hasKey b fp
     else []) ++ scanNewFiles fs b rest

/-- The report value assembled by `check_integrity` before it is handed to
the persistence and alert sinks. -/
def buildReport (cfg : Config) (fs : FS) (b : Baseline) (now : String) : Report :=
  { timestamp := now
    changes := (checkExisting fs b).1
    missing_files := (checkExisting fs b).2
    new_files := scanNewFiles fs b cfg.monitor_paths }

/-- The file paths named by a report's `changes` entries. -/
def changedFiles (r : Report) : List String :=
  r.changes.map (·.file)

/-- The current file set `check_integrity` derives from the monitor paths —
the same file/directory expansion `create_baseline` performs. -/
def currentFiles (fs : FS) : List String → List String
  | [] => []
  | path :: rest =>
    (if isFile fs path then [path]
     else if isDir fs path then walk fs path
     else []) ++ currentFiles fs rest

/-- Externally visible events of one `check_integrity` call, in program
order. -/
inductive Event where
  | logNoBaseline
  | writeReport (r : Report)
  | alertInvoke (r : Report)
  | smtpSend (r : Report)
  | logAlertSent
  | logSendFailure
deriving DecidableEq

/-- Model of `FileIntegrityChecker.send_alert`: return silently when no
alert address is configured; otherwise attempt the SMTP send, whose
failure is caught and logged. -/
def send_alert (cfg : Config) (r : Report) (smtpOk : Bool) : List Event :=
  if emailTruthy cfg.alert_email = false then []
  else if smtpOk then [.smtpSend r, .logAlertSent]
  else [.logSendFailure]

/-- Model of `FileIntegrityChecker.check_integrity` as its event trace:
with no persisted baseline it only reports that and returns; otherwise it
builds the report, writes it via `generate_report`, and invokes
`send_alert` exactly when `changes` or `missing_files` is non-empty. -/
def check_integrity (cfg : Config) (fs : FS) (stored : Option Baseline)
    (smtpOk : Bool) (now : String) : List Event :=
  match stored with
  | none => [.logNoBaseline]
  | some b =>
    let r := buildReport cfg fs b now
    .writeReport r ::
      (if !r.changes.isEmpty || !r.missing_files.isEmpty then
        .alertInvoke r :: send_alert cfg r smtpOk
       else [])

/-- A lowercase hexadecimal character. -/
def isLowerHexChar (c : Char) : Bool :=
  ('0' ≤ c && c ≤ '9') || ('a' ≤ c && c ≤ 'f')

/-- A well-formed 256-bit digest string: exactly 64 lowercase hex chars. -/
def isHex64 (s : String) : Bool :=
  s.data.length = 64 && s.data.all isLowerHexChar

/-- A POSIX-absolute path: starts with the separator. -/
def isAbsolute (p : String) : Bool :=
  p.data.head? = some '/'

/-! ### Basic lemmas about the filesystem model -/

theorem lookupFD_isSome_of_mem {fs : FS} {p : String} {fd : FileData}
    (h : (p, fd) ∈ fs) : (lookupFD fs p).isSome = true := by
  induction fs with
  | nil => cases h
  | cons e rest ih =>
    rcases List.mem_cons.mp h with h1 | h2
    · simp [lookupFD, ← h1]
    · by_cases hk : e.1 = p <;> simp [lookupFD, hk, ih h2]

theorem isFile_of_mem_walk {fs : FS} {d fp : String}
    (h : fp ∈ walk fs d) : isFile fs fp = true := by
  rcases List.mem_map.mp h with ⟨e, he, rfl⟩
  exact lookupFD_isSome_of_mem (List.mem_of_mem_filter he)

theorem hasKey_iff {b : Baseline} {k : String} :
    hasKey b k = true ↔ ∃ v, (k, v) ∈ b := by
  simp only [hasKey, List.any_eq_true, decide_eq_true_eq]
  constructor
  · rintro ⟨⟨k', v⟩, hm, rfl⟩
    exact ⟨v, hm⟩
  · rintro ⟨v, hm⟩
    exact ⟨(k, v), hm, rfl⟩

theorem mem_dictInsert {b : Baseline} {k : String} {v : Option String}
    {e : String × Option String} (h : e ∈ dictInsert b k v) :
    e = (k, v) ∨ e ∈ b := by
  unfold dictInsert at h
  split at h
  · rcases List.mem_map.mp h with ⟨e', he', rfl⟩
    by_cases hk : e'.1 = k <;> simp [hk, he']
  · rcases List.mem_append.mp h with h1 | h1
    · exact Or.inr h1
    · simp_all

theorem hasKey_dictInsert {b : Baseline} {k p : String} {v : Option String} :
    hasKey (dictInsert b k v) p = true ↔ p = k ∨ hasKey b p = true := by
  unfold dictInsert
  by_cases hin : hasKey b k = true
  case pos =>
    rw [if_pos hin]
    simp only [hasKey, List.any_map, List.any_eq_true, Function.comp,
      decide_eq_true_eq] at *
    constructor
    · rintro ⟨e, he, hp⟩
      by_cases hk : e.1 = k
      · rw [if_pos hk] at hp
        exact Or.inl hp.symm
      · rw [if_neg hk] at hp
        exact Or.inr ⟨e, he, hp⟩
    · rintro (h | ⟨e, he, hp⟩)
      · rcases hin with ⟨e, he, hk⟩
        exact ⟨e, he, by rw [if_pos hk]; exact h.symm⟩
      · by_cases hk : e.1 = k
        · exact ⟨e, he, by rw [if_pos hk]; exact hk ▸ hp⟩
        · exact ⟨e, he, by rw [if_neg hk]; exact hp⟩
  case neg =>
    rw [if_neg hin]
    simp only [hasKey, List.any_append, List.any_eq_true, Bool.or_eq_true,
      decide_eq_true_eq] at *
    constructor
    · rintro (⟨e, he, hp⟩ | ⟨e, he, hp⟩)
      · exact Or.inr ⟨e, he, hp⟩
      · simp only [List.mem_singleton] at he
        subst he
        exact Or.inl hp.symm
    · rintro (rfl | ⟨e, he, hp⟩)
      · exact Or.inr ⟨(p, v), List.mem_singleton.mpr rfl, rfl⟩
      · exact Or.inl ⟨e, he, hp⟩

theorem mem_walkInsert {fs : FS} {l : List String} {b : Baseline}
    {e : String × Option String} (h : e ∈ walkInsert fs l b) :
    (∃ fp ∈ l, e = (fp, calculate_hash fs fp)) ∨ e ∈ b := by
  induction l generalizing b with
  | nil => exact Or.inr h
  | cons fp rest ih =>
    rcases ih h with ⟨fp', hfp', rfl⟩ | h2
    · exact Or.inl ⟨fp', List.mem_cons_of_mem _ hfp', rfl⟩
    · rcases mem_dictInsert h2 with rfl | h3
      · exact Or.inl ⟨fp, List.mem_cons_self _ _, rfl⟩
      · exact Or.inr h3

theorem hasKey_walkInsert {fs : FS} {l : List String} {b : Baseline} {p : String} :
    hasKey (walkInsert fs l b) p = true ↔ p ∈ l ∨ hasKey b p = true := by
  induction l generalizing b with
  | nil => simp [walkInsert]
  | cons fp rest ih =>
    simp only [walkInsert, ih, hasKey_dictInsert, List.mem_cons]
    tauto

theorem mem_create_baselineAux {fs : FS} {l : List String} {b : Baseline}
    {e : String × Option String} (h : e ∈ create_baselineAux fs l b) :
    (isFile fs e.1 = true ∧ e.2 = calculate_hash fs e.1) ∨ e ∈ b := by
  induction l generalizing b with
  | nil => exact Or.inr h
  | cons path rest ih =>
    rcases ih h with h1 | h2
    · exact Or.inl h1
    · by_cases hf : isFile fs path = true
      · rw [if_pos hf] at h2
        rcases mem_dictInsert h2 with rfl | h3
        · exact Or.inl ⟨hf, rfl⟩
        · exact Or.inr h3
      · rw [if_neg hf] at h2
        by_cases hd : isDir fs path = true
        · rw [if_pos hd] at h2
          rcases mem_walkInsert h2 with ⟨fp, hfp, rfl⟩ | h3
          · exact Or.inl ⟨isFile_of_mem_walk hfp, rfl⟩
          · exact Or.inr h3
        · rw [if_neg hd] at h2
          exact Or.inr h2

theorem hasKey_create_baselineAux {fs : FS} {l : List String} {b : Baseline}
    {p : String} :
    hasKey (create_baselineAux fs l b) p = true ↔
      p ∈ currentFiles fs l ∨ hasKey b p = true := by
  induction l generalizing b with
  | nil => simp [create_baselineAux, currentFiles]
  | cons path rest ih =>
    simp only [create_baselineAux, currentFiles, ih, List.mem_append]
    by_cases hf : isFile fs path
    · simp [hf, hasKey_dictInsert]
      tauto
    · by_cases hd : isDir fs path
      · simp [hf, hd, hasKey_walkInsert]
        tauto
      · simp [hf, hd]

theorem mem_create_baseline {cfg : Config} {fs : FS}
    {e : String × Option String} (h : e ∈ create_baseline cfg fs) :
    isFile fs e.1 = true ∧ e.2 = calculate_hash fs e.1 := by
  rcases mem_create_baselineAux h with h1 | h2
  · exact h1
  · cases h2

theorem hasKey_create_baseline {cfg : Config} {fs : FS} {p : String} :
    hasKey (create_baseline cfg fs) p = true ↔
      p ∈ currentFiles fs cfg.monitor_paths := by
  unfold create_baseline
  rw [hasKey_create_baselineAux]
  simp [hasKey]

theorem value_eq_of_nodup_keys {b : Baseline} {p : String} {v1 v2 : Option String}
    (hnd : (b.map Prod.fst).Nodup) (h1 : (p, v1) ∈ b) (h2 : (p, v2) ∈ b) :
    v1 = v2 := by
  induction b with
  | nil => cases h1
  | cons e rest ih =>
    rw [List.map_cons, List.nodup_cons] at hnd
    rcases List.mem_cons.mp h1 with he1 | he1 <;>
      rcases List.mem_cons.mp h2 with he2 | he2
    · rw [← he2] at he1
      exact (Prod.mk.injEq _ _ _ _ ▸ he1).2
    · exact absurd (List.mem_map.mpr ⟨(p, v2), he2, by rw [← he1]⟩) hnd.1
    · exact absurd (List.mem_map.mpr ⟨(p, v1), he1, by rw [← he2]⟩) hnd.1
    · exact ih hnd.2 he1 he2

theorem bool_true_of_not_false {x : Bool} (h : ¬x = false) : x = true := by
  cases x <;> simp_all

theorem mem_checkExisting_missing {fs : FS} {b : Baseline} {p : String} :
    p ∈ (checkExisting fs b).2 ↔
      ∃ exp, (p, exp) ∈ b ∧ pathExists fs p = false := by
  induction b with
  | nil => simp [checkExisting]
  | cons e rest ih =>
    obtain ⟨q, exp⟩ := e
    simp only [checkExisting]
    by_cases hex : pathExists fs q = false
    · rw [if_pos hex]
      simp only [List.mem_cons]
      constructor
      · rintro (rfl | h)
        · exact ⟨exp, Or.inl rfl, hex⟩
        · obtain ⟨e', he', hpe⟩ := ih.mp h
          exact ⟨e', Or.inr he', hpe⟩
      · rintro ⟨e', heq | hmem, hpe⟩
        · injection heq with h1 h2
          exact Or.inl h1
        · exact Or.inr (ih.mpr ⟨e', hmem, hpe⟩)
    · have h2 : p ∈ (if calculate_hash fs q = exp then checkExisting fs rest
          else (⟨q, exp, calculate_hash fs q⟩ :: (checkExisting fs rest).1,
            (checkExisting fs rest).2)).2 ↔ p ∈ (checkExisting fs rest).2 := by
        by_cases hh : calculate_hash fs q = exp
        · rw [if_pos hh]
        · rw [if_neg hh]
      rw [if_neg hex, h2, ih]
      constructor
      · rintro ⟨e', he', hpe⟩
        exact ⟨e', List.mem_cons_of_mem _ he', hpe⟩
      · rintro ⟨e', he', hpe⟩
        rcases List.mem_cons.mp he' with heq | hmem
        · cases heq
          exact absurd hpe hex
        · exact ⟨e', hmem, hpe⟩

theorem mem_checkExisting_changes {fs : FS} {b : Baseline} {c : Change} :
    c ∈ (checkExisting fs b).1 ↔
      (c.file, c.expected_hash) ∈ b ∧ pathExists fs c.file = true ∧
        calculate_hash fs c.file ≠ c.expected_hash ∧
        c.current_hash = calculate_hash fs c.file := by
  induction b with
  | nil => simp [checkExisting]
  | cons e rest ih =>
    obtain ⟨q, exp⟩ := e
    simp only [checkExisting]
    by_cases hex : pathExists fs q = false
    · rw [if_pos hex]
      rw [ih]
      constructor
      · rintro ⟨hm, hrest⟩
        exact ⟨List.mem_cons_of_mem _ hm, hrest⟩
      · rintro ⟨hm, hpe, hrest⟩
        rcases List.mem_cons.mp hm with heq | hmem
        · injection heq with h1 h2
          rw [h1] at hpe
          rw [hpe] at hex
          simp at hex
        · exact ⟨hmem, hpe, hrest⟩
    · have hex' : pathExists fs q = true := bool_true_of_not_false hex
      rw [if_neg hex]
      by_cases hh : calculate_hash fs q = exp
      · rw [if_pos hh, ih]
        constructor
        · rintro ⟨hm, hrest⟩
          exact ⟨List.mem_cons_of_mem _ hm, hrest⟩
        · rintro ⟨hm, hpe, hne, hcur⟩
          rcases List.mem_cons.mp hm with heq | hmem
          · injection heq with hf he
            rw [hf, he] at hne
            exact absurd hh hne
          · exact ⟨hmem, hpe, hne, hcur⟩
      · rw [if_neg hh]
        simp only [List.mem_cons, ih]
        constructor
        · rintro (rfl | ⟨hm, hrest⟩)
          · exact ⟨Or.inl rfl, hex', hh, rfl⟩
          · exact ⟨Or.inr hm, hrest⟩
        · rintro ⟨heq | hmem, hpe, hne, hcur⟩
          · injection heq with hf he
            left
            cases c
            simp_all
          · exact Or.inr ⟨hmem, hpe, hne, hcur⟩

theorem not_mem_scanNewFiles_of_hasKey {fs : FS} {b : Baseline} {l : List String}
    {p : String} (h : hasKey b p = true) : p ∉ scanNewFiles fs b l := by
  induction l with
  | nil => simp [scanNewFiles]
  | cons path rest ih =>
    simp only [scanNewFiles, List.mem_append]
    rintro (h1 | h2)
    · by_cases hA : (isFile fs path && !hasKey b path) = true
      · rw [if_pos hA] at h1
        rw [List.mem_singleton.mp h1] at h
        rw [Bool.and_eq_true, Bool.not_eq_true'] at hA
        rw [h] at hA
        cases hA.2
      · rw [if_neg hA] at h1
        by_cases hB : isDir fs path = true
        · rw [if_pos hB] at h1
          have := (List.mem_filter.mp h1).2
          rw [Bool.not_eq_true'] at this
          rw [h] at this
          cases this
        · rw [if_neg hB] at h1
          cases h1
    · exact ih h2

theorem mem_currentFiles_isFile {fs : FS} {l : List String} {p : String}
    (h : p ∈ currentFiles fs l) : isFile fs p = true := by
  induction l with
  | nil => cases h
  | cons path rest ih =>
    simp only [currentFiles, List.mem_append] at h
    rcases h with h1 | h2
    · by_cases hf : isFile fs path = true
      · rw [if_pos hf] at h1
        rw [List.mem_singleton.mp h1]
        exact hf
      · rw [if_neg hf] at h1
        by_cases hd : isDir fs path = true
        · rw [if_pos hd] at h1
          exact isFile_of_mem_walk h1
        · rw [if_neg hd] at h1
          cases h1
    · exact ih h2

theorem mem_scanNewFiles_of_mem_currentFiles {fs : FS} {b : Baseline}
    {l : List String} {p : String} (hc : p ∈ currentFiles fs l)
    (hk : hasKey b p = false) : p ∈ scanNewFiles fs b l := by
  induction l with
  | nil => cases hc
  | cons path rest ih =>
    simp only [currentFiles, List.mem_append] at hc
    simp only [scanNewFiles, List.mem_append]
    rcases hc with h1 | h2
    · left
      by_cases hf : isFile fs path = true
      · rw [if_pos hf] at h1
        rw [List.mem_singleton.mp h1] at hk ⊢
        rw [if_pos (by rw [hf, hk]; rfl)]
        exact List.mem_singleton.mpr rfl
      · rw [if_neg hf] at h1
        by_cases hd : isDir fs path = true
        · rw [if_pos hd] at h1
          rw [if_neg (by simp [Bool.and_eq_true]; intro hf'; exact absurd hf' hf),
            if_pos hd]
          exact List.mem_filter.mpr ⟨h1, by rw [hk]; rfl⟩
        · rw [if_neg hd] at h1
          cases h1
    · exact Or.inr (ih h2)

theorem mem_currentFiles_of_mem_scanNewFiles {fs : FS} {b : Baseline}
    {l : List String} {p : String}
    (hwf : ∀ q ∈ l, isFile fs q = true → isDir fs q = false)
    (h : p ∈ scanNewFiles fs b l) :
    p ∈ currentFiles fs l ∧ hasKey b p = false := by
  induction l with
  | nil => cases h
  | cons path rest ih =>
    have hwf' : ∀ q ∈ rest, isFile fs q = true → isDir fs q = false :=
      fun q hq => hwf q (List.mem_cons_of_mem _ hq)
    simp only [scanNewFiles, List.mem_append] at h
    simp only [currentFiles, List.mem_append]
    rcases h with h1 | h2
    · by_cases hA : (isFile fs path && !hasKey b path) = true
      · rw [if_pos hA] at h1
        rw [Bool.and_eq_true, Bool.not_eq_true'] at hA
        rw [List.mem_singleton.mp h1]
        refine ⟨Or.inl ?_, hA.2⟩
        rw [if_pos hA.1]
        exact List.mem_singleton.mpr rfl
      · rw [if_neg hA] at h1
        by_cases hB : isDir fs path = true
        · rw [if_pos hB] at h1
          have hfp : isFile fs path = false := by
            by_cases hf : isFile fs path = true
            · exact absurd hB (by rw [hwf path (List.mem_cons_self _ _) hf]; simp)
            · exact Bool.not_eq_true _ ▸ hf
          obtain ⟨hw, hknot⟩ := List.mem_filter.mp h1
          rw [Bool.not_eq_true'] at hknot
          refine ⟨Or.inl ?_, hknot⟩
          rw [if_neg (by rw [hfp]; simp), if_pos hB]
          exact hw
        · rw [if_neg hB] at h1
          cases h1
    · obtain ⟨hc, hk⟩ := ih hwf' h2
      exact ⟨Or.inr hc, hk⟩

theorem mem_scanNewFiles_iff {fs : FS} {b : Baseline} {l : List String}
    {p : String} (hwf : ∀ q ∈ l, isFile fs q = true → isDir fs q = false) :
    p ∈ scanNewFiles fs b l ↔ p ∈ currentFiles fs l ∧ hasKey b p = false :=
  ⟨mem_currentFiles_of_mem_scanNewFiles hwf,
    fun ⟨hc, hk⟩ => mem_scanNewFiles_of_mem_currentFiles hc hk⟩

theorem checkExisting_eq_nil {fs : FS} {b : Baseline}
    (h : ∀ e ∈ b, isFile fs e.1 = true ∧ e.2 = calculate_hash fs e.1) :
    checkExisting fs b = ([], []) := by
  induction b with
  | nil => rfl
  | cons e rest ih =>
    obtain ⟨q, exp⟩ := e
    obtain ⟨hf, hv⟩ := h (q, exp) (List.mem_cons_self _ _)
    simp only [checkExisting]
    rw [if_neg (by unfold pathExists; rw [hf]; simp), if_pos (by exact hv.symm)]
    exact ih fun e' he' => h e' (List.mem_cons_of_mem _ he')

theorem scanNewFiles_eq_nil {fs : FS} {b : Baseline} {l : List String}
    (hwf : ∀ q ∈ l, isFile fs q = true → isDir fs q = false)
    (hcov : ∀ p ∈ currentFiles fs l, hasKey b p = true) :
    scanNewFiles fs b l = [] := by
  rw [List.eq_nil_iff_forall_not_mem]
  intro p hp
  obtain ⟨hc, hk⟩ := mem_currentFiles_of_mem_scanNewFiles hwf hp
  have := hcov p hc
  rw [this] at hk
  cases hk

theorem isLowerHexChar_hexChar {m : Nat} (h : m < 16) :
    isLowerHexChar (hexChar m) = true := by
  interval_cases m <;> decide

theorem isHex64_hexdigest (n : Nat) : isHex64 (hexdigest n) = true := by
  unfold isHex64 hexdigest
  rw [Bool.and_eq_true, List.all_eq_true]
  constructor
  · simp
  · intro c hc
    rw [List.mem_map] at hc
    obtain ⟨i, _, rfl⟩ := hc
    exact isLowerHexChar_hexChar (Nat.mod_lt _ (by norm_num))

theorem isHex64_sha256hex (content : String) :
    isHex64 (sha256hex content) = true :=
  isHex64_hexdigest _

theorem alertInvoke_not_mem_send_alert {cfg : Config} {r r' : Report}
    {ok : Bool} : Event.alertInvoke r' ∉ send_alert cfg r ok := by
  unfold send_alert
  by_cases he : emailTruthy cfg.alert_email = false
  · rw [if_pos he]
    simp
  · rw [if_neg he]
    cases ok <;> simp

theorem writeReport_not_mem_send_alert {cfg : Config} {r r' : Report}
    {ok : Bool} : Event.writeReport r' ∉ send_alert cfg r ok := by
  unfold send_alert
  by_cases he : emailTruthy cfg.alert_email = false
  · rw [if_pos he]
    simp
  · rw [if_neg he]
    cases ok <;> simp

/-! ### Claim theorems -/

/-- C1.  `check_integrity` classifies every baseline entry into exactly one
of three outcomes: a vanished path lands in `missing_files` (and nowhere
else), an existing path whose recomputed digest differs from the expected
one contributes exactly the `{file, expected_hash, current_hash}` entry to
`changes` (and appears nowhere else), and an existing path whose digest is
unchanged appears nowhere in the report.  The baseline is a dict, so its
keys are assumed distinct. -/
theorem check_classifies_baseline_entries (cfg : Config) (fs : FS)
    (b : Baseline) (now p : String) (exp : Option String)
    (hmem : (p, exp) ∈ b) (hnodup : (b.map Prod.fst).Nodup) :
    (pathExists fs p = false →
      p ∈ (buildReport cfg fs b now).missing_files ∧
      p ∉ changedFiles (buildReport cfg fs b now) ∧
      p ∉ (buildReport cfg fs b now).new_files) ∧
    (pathExists fs p = true → calculate_hash fs p ≠ exp →
      (⟨p, exp, calculate_hash fs p⟩ : Change) ∈ (buildReport cfg fs b now).changes ∧
      p ∉ (buildReport cfg fs b now).missing_files ∧
      p ∉ (buildReport cfg fs b now).new_files) ∧
    (pathExists fs p = true → calculate_hash fs p = exp →
      p ∉ (buildReport cfg fs b now).missing_files ∧
      p ∉ changedFiles (buildReport cfg fs b now) ∧
      p ∉ (buildReport cfg fs b now).new_files) := by
  have hkey : hasKey b p = true := hasKey_iff.mpr ⟨exp, hmem⟩
  have hnew : p ∉ (buildReport cfg fs b now).new_files :=
    not_mem_scanNewFiles_of_hasKey hkey
  have hnotmiss : pathExists fs p = true →
      p ∉ (buildReport cfg fs b now).missing_files := by
    intro hex hin
    obtain ⟨exp', _, hpe⟩ := mem_checkExisting_missing.mp hin
    rw [hex] at hpe
    cases hpe
  refine ⟨?_, ?_, ?_⟩
  · intro hex
    refine ⟨mem_checkExisting_missing.mpr ⟨exp, hmem, hex⟩, ?_, hnew⟩
    intro hin
    obtain ⟨c, hc, hcp⟩ := List.mem_map.mp hin
    obtain ⟨_, hpe, _⟩ := mem_checkExisting_changes.mp hc
    rw [hcp, hex] at hpe
    cases hpe
  · intro hex hne
    exact ⟨mem_checkExisting_changes.mpr ⟨hmem, hex, hne, rfl⟩, hnotmiss hex, hnew⟩
  · intro hex heq
    refine ⟨hnotmiss hex, ?_, hnew⟩
    intro hin
    obtain ⟨c, hc, hcp⟩ := List.mem_map.mp hin
    obtain ⟨hm, _, hne, _⟩ := mem_checkExisting_changes.mp hc
    rw [hcp] at hm hne
    have := value_eq_of_nodup_keys hnodup hm hmem
    rw [this] at hne
    exact hne heq

/-- Closed instance of C1: one baseline file exists unchanged, applied to
all three cases of the classification. -/
theorem check_classifies_baseline_entries_witness :
    ("a.txt", some (sha256hex "x")) ∈
        ([("a.txt", some (sha256hex "x"))] : Baseline) ∧
      (pathExists [("a.txt", FileData.ok "x")] "a.txt" = true →
        calculate_hash [("a.txt", FileData.ok "x")] "a.txt" =
            some (sha256hex "x") →
        "a.txt" ∉ (buildReport ⟨["a.txt"], 60, none, "reports"⟩
            [("a.txt", FileData.ok "x")]
            [("a.txt", some (sha256hex "x"))] "t").missing_files ∧
        "a.txt" ∉ changedFiles (buildReport ⟨["a.txt"], 60, none, "reports"⟩
            [("a.txt", FileData.ok "x")]
            [("a.txt", some (sha256hex "x"))] "t") ∧
        "a.txt" ∉ (buildReport ⟨["a.txt"], 60, none, "reports"⟩
            [("a.txt", FileData.ok "x")]
            [("a.txt", some (sha256hex "x"))] "t").new_files) :=
  ⟨List.mem_singleton.mpr rfl,
    (check_classifies_baseline_entries ⟨["a.txt"], 60, none, "reports"⟩
      [("a.txt", FileData.ok "x")] [("a.txt", some (sha256hex "x"))] "t"
      "a.txt" (some (sha256hex "x")) (List.mem_singleton.mpr rfl)
      (by simp)).2.2⟩

/-- C2.  Under the real-filesystem assumption that no monitored path is
both a file and a directory, a path lies in `new_files` exactly when it is
in the current file set derived from the monitor paths and is not a key of
the baseline; and the derived current file set coincides with the key set
`create_baseline` produces, i.e. the check uses the same file/directory
expansion as the baseline builder. -/
theorem new_files_iff_current_not_in_baseline (cfg : Config) (fs : FS)
    (b : Baseline) (now p : String)
    (hwf : ∀ q ∈ cfg.monitor_paths, isFile fs q = true → isDir fs q = false) :
    (p ∈ (buildReport cfg fs b now).new_files ↔
      p ∈ currentFiles fs cfg.monitor_paths ∧ hasKey b p = false) ∧
    (hasKey (create_baseline cfg fs) p = true ↔
      p ∈ currentFiles fs cfg.monitor_paths) :=
  ⟨mem_scanNewFiles_iff hwf, hasKey_create_baseline⟩

/-- Closed instance of C2: a directory with one file not in the (empty)
baseline, so its file is new. -/
theorem new_files_iff_current_not_in_baseline_witness :
    ("d/x" ∈ (buildReport ⟨["d"], 60, none, "reports"⟩
        [("d/x", FileData.ok "hi")] [] "t").new_files ↔
      "d/x" ∈ currentFiles [("d/x", FileData.ok "hi")] ["d"] ∧
        hasKey [] "d/x" = false) :=
  (new_files_iff_current_not_in_baseline ⟨["d"], 60, none, "reports"⟩
    [("d/x", FileData.ok "hi")] [] "t" "d/x" (by decide)).1

/-- C3.  Round trip: checking against a freshly built baseline over the
same (unmutated) filesystem reports no changes, no missing files and no
new files.  The hypothesis is the real-filesystem fact that no monitored
path is simultaneously a file and a directory. -/
theorem roundtrip_report_empty (cfg : Config) (fs : FS) (now : String)
    (hwf : ∀ q ∈ cfg.monitor_paths, isFile fs q = true → isDir fs q = false) :
    (buildReport cfg fs (create_baseline cfg fs) now).changes = [] ∧
    (buildReport cfg fs (create_baseline cfg fs) now).missing_files = [] ∧
    (buildReport cfg fs (create_baseline cfg fs) now).new_files = [] := by
  have hval : ∀ e ∈ create_baseline cfg fs,
      isFile fs e.1 = true ∧ e.2 = calculate_hash fs e.1 :=
    fun _ he => mem_create_baseline he
  have hnil := checkExisting_eq_nil hval
  refine ⟨?_, ?_, ?_⟩
  · show (checkExisting fs (create_baseline cfg fs)).1 = []
    rw [hnil]
  · show (checkExisting fs (create_baseline cfg fs)).2 = []
    rw [hnil]
  · exact scanNewFiles_eq_nil hwf fun q hq => hasKey_create_baseline.mpr hq

/-- Closed instance of C3 over a directory holding one readable file. -/
theorem roundtrip_report_empty_witness :
    (buildReport ⟨["d"], 60, none, "reports"⟩ [("d/x", FileData.ok "hi")]
        (create_baseline ⟨["d"], 60, none, "reports"⟩
          [("d/x", FileData.ok "hi")]) "t").changes = [] ∧
    (buildReport ⟨["d"], 60, none, "reports"⟩ [("d/x", FileData.ok "hi")]
        (create_baseline ⟨["d"], 60, none, "reports"⟩
          [("d/x", FileData.ok "hi")]) "t").missing_files = [] ∧
    (buildReport ⟨["d"], 60, none, "reports"⟩ [("d/x", FileData.ok "hi")]
        (create_baseline ⟨["d"], 60, none, "reports"⟩
          [("d/x", FileData.ok "hi")]) "t").new_files = [] :=
  roundtrip_report_empty ⟨["d"], 60, none, "reports"⟩
    [("d/x", FileData.ok "hi")] "t" (by decide)

/-- C4.  When hashing an existing baseline-listed file fails during a
check, `calculate_hash` yields the `None` sentinel, which can never equal a
valid (64-hex) baseline digest, so the file is reported under `changes`
with the sentinel as its current hash. -/
theorem hash_failure_surfaces_as_changed (cfg : Config) (fs : FS)
    (b : Baseline) (now p d : String) (hmem : (p, some d) ∈ b)
    (_hvalid : isHex64 d = true) (hex : pathExists fs p = true)
    (hfail : calculate_hash fs p = none) :
    calculate_hash fs p ≠ some d ∧
      (⟨p, some d, none⟩ : Change) ∈ (buildReport cfg fs b now).changes := by
  have hne : calculate_hash fs p ≠ some d := by
    rw [hfail]
    exact Option.noConfusion
  refine ⟨hne, ?_⟩
  have hch : (⟨p, some d, calculate_hash fs p⟩ : Change) ∈
      (checkExisting fs b).1 :=
    mem_checkExisting_changes.mpr ⟨hmem, hex, hne, rfl⟩
  rw [hfail] at hch
  exact hch

/-- Closed instance of C4: an unreadable but existing file listed in the
baseline with a valid digest is reported as changed. -/
theorem hash_failure_surfaces_as_changed_witness :
    isHex64 (sha256hex "old") = true ∧
      (⟨"u.bin", some (sha256hex "old"), none⟩ : Change) ∈
        (buildReport ⟨["u.bin"], 60, none, "reports"⟩
          [("u.bin", FileData.unreadable)]
          [("u.bin", some (sha256hex "old"))] "t").changes :=
  ⟨isHex64_sha256hex "old",
    (hash_failure_surfaces_as_changed ⟨["u.bin"], 60, none, "reports"⟩
      [("u.bin", FileData.unreadable)] [("u.bin", some (sha256hex "old"))]
      "t" "u.bin" (sha256hex "old") (List.mem_singleton.mpr rfl)
      (isHex64_sha256hex "old") (by decide) (by decide)).2⟩

/-- C5, counterexample.  `create_baseline` stores monitor paths verbatim —
the code never calls `os.path.abspath` or `os.path.realpath` — so a
relative configured path such as `"notes.txt"` becomes a baseline key that
is not an absolute, fully-resolved path. -/
theorem baseline_key_not_absolute_counterexample :
    hasKey (create_baseline ⟨["notes.txt"], 60, none, "reports"⟩
        [("notes.txt", FileData.ok "hello")]) "notes.txt" = true ∧
      isAbsolute "notes.txt" = false := by
  decide

/-- C5, amended.  Every key of the baseline built by `create_baseline`,
and every member of the transient current file set, is a path at which the
filesystem holds a file — so a directory (which on a real filesystem is
never simultaneously a file) is expanded and never stored as a key itself.
The keys are however stored exactly as configured or walked, not resolved
to absolute paths. -/
theorem baseline_keys_are_files (cfg : Config) (fs : FS) (p : String)
    (h : hasKey (create_baseline cfg fs) p = true ∨
      p ∈ currentFiles fs cfg.monitor_paths) :
    isFile fs p = true := by
  rcases h with h | h
  · exact mem_currentFiles_isFile (hasKey_create_baseline.mp h)
  · exact mem_currentFiles_isFile h

/-- Closed instance of the amended C5: the walked file under a monitored
directory is a key and is a file. -/
theorem baseline_keys_are_files_witness :
    isFile [("d/x", FileData.ok "hi")] "d/x" = true :=
  baseline_keys_are_files ⟨["d"], 60, none, "reports"⟩
    [("d/x", FileData.ok "hi")] "d/x" (Or.inl (by decide))

/-- C6, counterexample.  `calculate_hash` returns `None` on a read error
and `create_baseline` stores that sentinel unguarded, so a baseline built
over an existing but unreadable file holds a `null` value, not a 64-char
hex digest. -/
theorem baseline_value_null_counterexample :
    lookupB (create_baseline ⟨["u.bin"], 60, none, "reports"⟩
        [("u.bin", FileData.unreadable)]) "u.bin" = some none ∧
      ((create_baseline ⟨["u.bin"], 60, none, "reports"⟩
          [("u.bin", FileData.unreadable)]).all fun e =>
            match e.2 with
            | some s => isHex64 s
            | none => false) = false := by
  decide

/-- C6, amended.  Every value stored in a built baseline is either a
64-character lowercase hex digest (hashing succeeded) or the `None`
sentinel recorded when hashing failed. -/
theorem baseline_values_hex_or_null (cfg : Config) (fs : FS) :
    ∀ e ∈ create_baseline cfg fs,
      e.2 = none ∨ ∃ s, e.2 = some s ∧ isHex64 s = true := by
  intro e he
  obtain ⟨_, hv⟩ := mem_create_baseline he
  rw [hv]
  unfold calculate_hash
  cases hfd : lookupFD fs e.1 with
  | none => exact Or.inl rfl
  | some fd =>
    cases fd with
    | ok c => exact Or.inr ⟨sha256hex c, rfl, isHex64_sha256hex c⟩
    | unreadable => exact Or.inl rfl

/-- Closed instance of the amended C6 at a readable file's entry. -/
theorem baseline_values_hex_or_null_witness :
    ("a.txt", some (sha256hex "x")) ∈
        create_baseline ⟨["a.txt"], 60, none, "reports"⟩
          [("a.txt", FileData.ok "x")] ∧
      (some (sha256hex "x") = none ∨
        ∃ s, some (sha256hex "x") = some s ∧ isHex64 s = true) :=
  ⟨by decide, baseline_values_hex_or_null ⟨["a.txt"], 60, none, "reports"⟩
    [("a.txt", FileData.ok "x")] ("a.txt", some (sha256hex "x")) (by decide)⟩

theorem check_integrity_some (cfg : Config) (fs : FS) (b : Baseline)
    (smtpOk : Bool) (now : String) :
    check_integrity cfg fs (some b) smtpOk now =
      Event.writeReport (buildReport cfg fs b now) ::
        (if (!(buildReport cfg fs b now).changes.isEmpty ||
            !(buildReport cfg fs b now).missing_files.isEmpty) = true then
          Event.alertInvoke (buildReport cfg fs b now) ::
            send_alert cfg (buildReport cfg fs b now) smtpOk
        else []) := rfl

/-- C7.  The notification sink (`send_alert`) is invoked after a check
exactly when the report's `changes` or `missing_files` list is non-empty;
a report populated only with `new_files`, or empty, never triggers it. -/
theorem alert_iff_changes_or_missing (cfg : Config) (fs : FS) (b : Baseline)
    (smtpOk : Bool) (now : String) :
    (∃ r, Event.alertInvoke r ∈ check_integrity cfg fs (some b) smtpOk now) ↔
      ((buildReport cfg fs b now).changes ≠ [] ∨
        (buildReport cfg fs b now).missing_files ≠ []) := by
  rw [check_integrity_some]
  by_cases hc : (!(buildReport cfg fs b now).changes.isEmpty ||
      !(buildReport cfg fs b now).missing_files.isEmpty) = true
  · rw [if_pos hc]
    simp only [Bool.or_eq_true, Bool.not_eq_true', List.isEmpty_eq_false] at hc
    exact ⟨fun _ => hc, fun _ => ⟨buildReport cfg fs b now,
      List.mem_cons_of_mem _ (List.mem_cons_self _ _)⟩⟩
  · rw [if_neg hc]
    simp only [Bool.or_eq_true, Bool.not_eq_true', List.isEmpty_eq_false] at hc
    push_neg at hc
    constructor
    · rintro ⟨r, hr⟩
      simp at hr
    · rintro (h | h)
      · exact absurd hc.1 h
      · exact absurd hc.2 h

/-- Closed instance of C7: a baseline file missing on disk makes the alert
fire; the derived report indeed has non-empty `missing_files`. -/
theorem alert_iff_changes_or_missing_witness :
    (∃ r, Event.alertInvoke r ∈
      check_integrity ⟨[], 60, some "admin@example.com", "reports"⟩ []
        (some [("gone.txt", some "h")]) true "t") ↔
      ((buildReport ⟨[], 60, some "admin@example.com", "reports"⟩ []
          [("gone.txt", some "h")] "t").changes ≠ [] ∨
        (buildReport ⟨[], 60, some "admin@example.com", "reports"⟩ []
          [("gone.txt", some "h")] "t").missing_files ≠ []) :=
  alert_iff_changes_or_missing ⟨[], 60, some "admin@example.com", "reports"⟩
    [] [("gone.txt", some "h")] true "t"

/-- C8.  In a check cycle that emits a report, the report-write event is
always the first event of the cycle — in particular it precedes any
notification attempt — the trace never writes a second report after the
head, and when the SMTP transport fails the failure is caught and logged
(`logSendFailure`), leaving the written report identical to the success
case (it is the same head event for every transport outcome). -/
theorem report_written_before_alert (cfg : Config) (fs : FS) (b : Baseline)
    (now : String)
    (hcond : (buildReport cfg fs b now).changes ≠ [] ∨
      (buildReport cfg fs b now).missing_files ≠ [])
    (hemail : emailTruthy cfg.alert_email = true) :
    (∀ smtpOk, (check_integrity cfg fs (some b) smtpOk now).head? =
        some (Event.writeReport (buildReport cfg fs b now)) ∧
      ∀ r, Event.writeReport r ∉
        (check_integrity cfg fs (some b) smtpOk now).tail) ∧
    Event.logSendFailure ∈ check_integrity cfg fs (some b) false now := by
  have hcb : (!(buildReport cfg fs b now).changes.isEmpty ||
      !(buildReport cfg fs b now).missing_files.isEmpty) = true := by
    simp only [Bool.or_eq_true, Bool.not_eq_true', List.isEmpty_eq_false]
    exact hcond
  constructor
  · intro smtpOk
    rw [check_integrity_some, if_pos hcb]
    refine ⟨rfl, ?_⟩
    intro r hr
    rw [List.tail_cons] at hr
    rcases List.mem_cons.mp hr with h | h
    · exact Event.noConfusion h
    · exact writeReport_not_mem_send_alert h
  · rw [check_integrity_some, if_pos hcb]
    have hsa : send_alert cfg (buildReport cfg fs b now) false =
        [Event.logSendFailure] := by
      unfold send_alert
      rw [if_neg (by rw [hemail]; simp), if_neg Bool.false_ne_true]
    rw [hsa]
    simp

/-- Closed instance of C8: missing baseline file, configured alert
address, failing transport. -/
theorem report_written_before_alert_witness :
    ((buildReport ⟨[], 60, some "admin@example.com", "reports"⟩ []
        [("gone.txt", some "h")] "t").changes ≠ [] ∨
      (buildReport ⟨[], 60, some "admin@example.com", "reports"⟩ []
        [("gone.txt", some "h")] "t").missing_files ≠ []) ∧
    ((∀ smtpOk, (check_integrity ⟨[], 60, some "admin@example.com", "reports"⟩
          [] (some [("gone.txt", some "h")]) smtpOk "t").head? =
        some (Event.writeReport
          (buildReport ⟨[], 60, some "admin@example.com", "reports"⟩ []
            [("gone.txt", some "h")] "t")) ∧
      ∀ r, Event.writeReport r ∉
        (check_integrity ⟨[], 60, some "admin@example.com", "reports"⟩ []
          (some [("gone.txt", some "h")]) smtpOk "t").tail) ∧
    Event.logSendFailure ∈
      check_integrity ⟨[], 60, some "admin@example.com", "reports"⟩ []
        (some [("gone.txt", some "h")]) false "t") :=
  ⟨by decide,
    report_written_before_alert ⟨[], 60, some "admin@example.com", "reports"⟩
      [] [("gone.txt", some "h")] "t" (by decide) (by decide)⟩

/-- C9.  With no persisted baseline, `check_integrity` only reports the
absence to the operator: the trace is exactly the log message, so no
report (even partial) is written and no notification of any kind is
attempted. -/
theorem no_baseline_skips_check (cfg : Config) (fs : FS) (smtpOk : Bool)
    (now : String) :
    check_integrity cfg fs none smtpOk now = [Event.logNoBaseline] ∧
    (∀ r, Event.writeReport r ∉ check_integrity cfg fs none smtpOk now) ∧
    (∀ r, Event.alertInvoke r ∉ check_integrity cfg fs none smtpOk now) ∧
    (∀ r, Event.smtpSend r ∉ check_integrity cfg fs none smtpOk now) := by
  refine ⟨rfl, ?_, ?_, ?_⟩ <;> intro r hr <;> simp [check_integrity] at hr

/-- Closed instance of C9 at a concrete configuration. -/
theorem no_baseline_skips_check_witness :
    check_integrity ⟨["d"], 60, some "admin@example.com", "reports"⟩
        [("d/x", FileData.ok "hi")] none true "t" = [Event.logNoBaseline] ∧
    (∀ r, Event.writeReport r ∉
      check_integrity ⟨["d"], 60, some "admin@example.com", "reports"⟩
        [("d/x", FileData.ok "hi")] none true "t") ∧
    (∀ r, Event.alertInvoke r ∉
      check_integrity ⟨["d"], 60, some "admin@example.com", "reports"⟩
        [("d/x", FileData.ok "hi")] none true "t") ∧
    (∀ r, Event.smtpSend r ∉
      check_integrity ⟨["d"], 60, some "admin@example.com", "reports"⟩
        [("d/x", FileData.ok "hi")] none true "t") :=
  no_baseline_skips_check ⟨["d"], 60, some "admin@example.com", "reports"⟩
    [("d/x", FileData.ok "hi")] true "t"

/-- C10.  `new_files` is not deduplicated: with the same directory listed
twice in `monitor_paths`, its one on-disk file (absent from the baseline)
is appended to `new_files` once per listing, so it appears twice. -/
theorem new_files_not_deduplicated :
    ((buildReport ⟨["d", "d"], 60, none, "reports"⟩
        [("d/x", FileData.ok "hi")] [] "t").new_files).count "d/x" = 2 := by
  decide

end FIC
